import Mathlib

/-!
Verification of the memory-safe utilities core of the
`tauri-security-boilerplate` repository
(`src-tauri/src/utils/memory_safe.rs`).

Strings are embedded as `List Char` (the sequence of characters of a Rust
`String`/`&str`).  Rust's `str::contains` on a string pattern is substring
containment (`containsSub`), `str::replace` is leftmost, non-overlapping
substring replacement (`replaceSub`), `str::to_lowercase`/`to_uppercase`
act characterwise (all patterns involved are ASCII, where `Char.toLower` /
`Char.toUpper` agree with Rust), and `str::trim_start_matches('/')` is
`List.dropWhile (· = '/')`.

The raw secure allocator and its process-wide registry are embedded as an
explicit state (`MemState`) threaded through the operations; the outcomes
of the system allocator (`std::alloc::alloc`, which may return null) and of
the registry mutex (`Mutex::lock`, which fails only when poisoned) are
passed in as explicit oracle arguments, since they are environment
behaviour, not program logic.
-/

/-- Boolean substring containment on character lists: Rust `str::contains`
with a string pattern. -/
def containsSub (pat : List Char) : List Char → Bool
  | [] => pat.isEmpty
  | c :: rest => pat.isPrefixOf (c :: rest) || containsSub pat rest

/-- `containsSub` decides the `List.IsInfix` relation. -/
theorem containsSub_iff_infix (pat s : List Char) :
    containsSub pat s = true ↔ pat <:+: s := by
  induction s with
  | nil =>
    simp [containsSub, List.isEmpty_iff, List.infix_nil]
  | cons c rest ih =>
    simp only [containsSub, Bool.or_eq_true, List.isPrefixOf_iff_prefix, ih,
      List.infix_cons_iff]

/-- Worker for `replaceSub`: while `skip > 0`, pass characters of an
already-matched occurrence; at `skip = 0`, emit the replacement on a
pattern match (and skip the matched characters) or keep the current
character. -/
def replaceSubAux (pat rep : List Char) : Nat → List Char → List Char
  | _, [] => []
  | Nat.succ k, _ :: rest => replaceSubAux pat rep k rest
  | 0, c :: rest =>
    if pat.isPrefixOf (c :: rest) ∧ pat ≠ [] then
      rep ++ replaceSubAux pat rep (pat.length - 1) rest
    else
      c :: replaceSubAux pat rep 0 rest

/-- Leftmost, non-overlapping substring replacement on character lists:
Rust `str::replace` for a non-empty string pattern. -/
def replaceSub (pat rep : List Char) (s : List Char) : List Char :=
  replaceSubAux pat rep 0 s

/-- Skipping `k` characters is dropping them. -/
theorem replaceSubAux_skip (pat rep : List Char) :
    ∀ (k : Nat) (l : List Char),
      replaceSubAux pat rep k l = replaceSub pat rep (List.drop k l) := by
  intro k
  induction k with
  | zero => intro l; cases l <;> rfl
  | succ k ih =>
    intro l
    cases l with
    | nil => rfl
    | cons c rest => simpa [replaceSubAux] using ih rest

/-- Unfolding lemma for `replaceSub` on a cons cell. -/
theorem replaceSub_cons (pat rep : List Char) (c : Char) (rest : List Char) :
    replaceSub pat rep (c :: rest) =
      if pat.isPrefixOf (c :: rest) ∧ pat ≠ [] then
        rep ++ replaceSub pat rep (List.drop (pat.length - 1) rest)
      else
        c :: replaceSub pat rep rest := by
  show replaceSubAux pat rep 0 (c :: rest) = _
  rw [replaceSubAux, replaceSubAux_skip]
  rfl

/-- The injection pattern list of `BoundaryValidator::validate_string`. -/
def injection_patterns : List (List Char) :=
  ["<script".toList, "javascript:".toList, "data:text/html".toList,
   "vbscript:".toList, "onload=".toList, "onerror=".toList,
   "onclick=".toList, "onmouseover=".toList]

/-- The SQL-injection pattern list of `BoundaryValidator::validate_string`. -/
def sql_patterns : List (List Char) :=
  ["' OR ".toList, "\" OR ".toList, "' OR '1'='1".toList,
   "\" OR \"1\"=\"1".toList, "'; DROP TABLE".toList,
   "\"; DROP TABLE".toList, "'; SELECT ".toList, "'; INSERT ".toList]

/-- `BoundaryValidator::validate_string`: rejects when the lower-cased
input contains an injection pattern, when the upper-cased input contains
an upper-cased SQL pattern, or when the input contains a null byte. -/
def validate_string (input : List Char) : Bool :=
  if injection_patterns.any
      (fun pat => containsSub pat (input.map Char.toLower)) then
    false
  else if sql_patterns.any
      (fun pat => containsSub (pat.map Char.toUpper) (input.map Char.toUpper)) then
    false
  else if input.contains (Char.ofNat 0) then
    false
  else
    true

/-- The traversal pattern list of `BoundaryValidator::validate_path`. -/
def traversal_patterns : List (List Char) :=
  ["..".toList, "~".toList, "/etc/".toList, "C:\\Windows\\".toList,
   "/dev/".toList, "/proc/".toList, "/sys/".toList, "/var/log/".toList,
   "/root/".toList, "/home/".toList]

/-- `BoundaryValidator::validate_path`: rejects when the path contains any
traversal pattern. -/
def validate_path (path : List Char) : Bool :=
  if traversal_patterns.any (fun pat => containsSub pat path) then
    false
  else
    true

/-- `BoundaryValidator::sanitize_string`: sequential `str::replace` of the
HTML-special characters by their entities, then removal of null bytes. -/
def sanitize_string (input : List Char) : List Char :=
  replaceSub [Char.ofNat 0] [] <|
  replaceSub ['\''] "&#39;".toList <|
  replaceSub ['"'] "&quot;".toList <|
  replaceSub ['>'] "&gt;".toList <|
  replaceSub ['<'] "&lt;".toList <|
  replaceSub ['&'] "&amp;".toList input

/-- `BoundaryValidator::sanitize_path`: remove `".."`, remove `"~"`,
normalize backslashes to forward slashes, strip leading slashes. -/
def sanitize_path (path : List Char) : List Char :=
  List.dropWhile (fun c => c = '/') <|
  replaceSub ['\\'] ['/'] <|
  replaceSub ['~'] [] <|
  replaceSub ['.', '.'] [] path

/-- The zero character (a zeroed byte in a string buffer). -/
def zeroChar : Char := Char.ofNat 0

/-- Model of `SecureString`: `data` is the logical string content, `spare`
is the content of the backing buffer past the logical length (up to
capacity), `sensitive` is the flag set at construction. -/
structure SecureString where
  data : List Char
  spare : List Char
  sensitive : Bool
deriving DecidableEq

namespace SecureString

/-- `SecureString::new`: takes ownership, marks sensitive. -/
def new (d : List Char) : SecureString :=
  { data := d, spare := [], sensitive := true }

/-- `SecureString::new_non_sensitive`. -/
def new_non_sensitive (d : List Char) : SecureString :=
  { data := d, spare := [], sensitive := false }

/-- `SecureString::len`. -/
def len (s : SecureString) : Nat := s.data.length

/-- `SecureString::is_empty`. -/
def is_empty (s : SecureString) : Bool := s.data.isEmpty

/-- `impl AsRef<str> for SecureString`: the public read-only view. -/
def as_ref (s : SecureString) : List Char := s.data

/-- `SecureString::clear`: when sensitive, first overwrite the whole
backing capacity (logical content and spare region) with zero bytes, then
reset the logical length to zero; when not sensitive, only reset the
logical length (the old bytes stay in the buffer). -/
def clear (s : SecureString) : SecureString :=
  if s.sensitive then
    { data := [],
      spare := List.replicate (s.data.length + s.spare.length) zeroChar,
      sensitive := s.sensitive }
  else
    { data := [], spare := s.data ++ s.spare, sensitive := s.sensitive }

/-- `impl fmt::Display for SecureString`: the rendered text. -/
def display (s : SecureString) : List Char :=
  if s.sensitive then "***REDACTED***".toList else s.data

end SecureString

/-- Model of `SecureBytes`: same shape as `SecureString`, with byte
content. -/
structure SecureBytes where
  data : List Nat
  spare : List Nat
  sensitive : Bool
deriving DecidableEq

namespace SecureBytes

/-- `SecureBytes::new`. -/
def new (d : List Nat) : SecureBytes :=
  { data := d, spare := [], sensitive := true }

/-- `SecureBytes::new_non_sensitive`. -/
def new_non_sensitive (d : List Nat) : SecureBytes :=
  { data := d, spare := [], sensitive := false }

/-- `SecureBytes::len`. -/
def len (b : SecureBytes) : Nat := b.data.length

/-- `SecureBytes::is_empty`. -/
def is_empty (b : SecureBytes) : Bool := b.data.isEmpty

/-- `SecureBytes::as_bytes`: the public read-only view. -/
def as_bytes (b : SecureBytes) : List Nat := b.data

/-- `SecureBytes::clear`: same contract as `SecureString::clear`. -/
def clear (b : SecureBytes) : SecureBytes :=
  if b.sensitive then
    { data := [],
      spare := List.replicate (b.data.length + b.spare.length) 0,
      sensitive := b.sensitive }
  else
    { data := [], spare := b.data ++ b.spare, sensitive := b.sensitive }

end SecureBytes

/-- The error type `SecureMemoryError`. -/
inductive SecureMemoryError where
  | AllocationFailed (msg : String)
  | LockFailed (msg : String)
  | OperationFailed (msg : String)
  | InvalidAccess
deriving DecidableEq

/-- State of the raw secure-memory subsystem: the contents of the
process-wide registry (`SECURE_MEMORY_REGISTRY`, a `Vec` of addresses),
the set of currently live raw allocations (`heap`), and the byte content
of memory at each address (`mem`).  Addresses are naturals; address `0`
is the null pointer. -/
structure MemState where
  registry : List Nat
  heap : List Nat
  mem : Nat → Nat

/-- `ptr::write_bytes ptr val size`: fill `size` bytes from `ptr` with
`val`. -/
def write_bytes (mem : Nat → Nat) (ptr val size : Nat) : Nat → Nat :=
  fun a => if ptr ≤ a ∧ a < ptr + size then val else mem a

/-- `register_secure_memory`: push the address onto the registry; if the
mutex cannot be locked (oracle `lock = some e`, the poison message),
fail with `LockFailed`. -/
def register_secure_memory (lock : Option String) (ptr : Nat)
    (st : MemState) : Except SecureMemoryError Unit × MemState :=
  match lock with
  | some e => (.error (.LockFailed e), st)
  | none => (.ok (), { st with registry := st.registry ++ [ptr] })

/-- `deregister_secure_memory`: retain every registry entry different from
the address; if the mutex cannot be locked, fail with `LockFailed`. -/
def deregister_secure_memory (lock : Option String) (ptr : Nat)
    (st : MemState) : Except SecureMemoryError Unit × MemState :=
  match lock with
  | some e => (.error (.LockFailed e), st)
  | none => (.ok (), { st with registry := st.registry.filter (fun p => p ≠ ptr) })

/-- `isize::MAX`: `Layout::from_size_align(size, 1)` errors above it. -/
def isizeMax : Nat := 2 ^ 63 - 1

/-- Display text of `LayoutError`. -/
def layoutErrMsg : String := "invalid parameters to Layout::from_size_align"

/-- `SecureAllocator::allocate`.  `allocResult` is the address returned by
`std::alloc::alloc` (`0` = null); `lock` is the registry-mutex oracle.
A non-null result is zeroed over its `size` bytes and becomes live; it is
registered before success is returned, and freed again when registration
fails. -/
def allocate (size : Nat) (allocResult : Nat) (lock : Option String)
    (st : MemState) : Except SecureMemoryError Nat × MemState :=
  if isizeMax < size then
    (.error (.AllocationFailed layoutErrMsg), st)
  else
    let ptr := allocResult
    if ptr = 0 then
      (.error (.AllocationFailed "allocation returned null"), st)
    else
      let st1 : MemState :=
        { st with heap := ptr :: st.heap, mem := write_bytes st.mem ptr 0 size }
      match register_secure_memory lock ptr st1 with
      | (.ok _, st2) => (.ok ptr, st2)
      | (.error e, st2) => (.error e, { st2 with heap := st2.heap.erase ptr })

/-- `SecureAllocator::deallocate`: reject a null handle with
`InvalidAccess`; otherwise zero the `size` bytes, attempt deregistration
(a `LockFailed` there is logged and suppressed), release the block and
return success. -/
def deallocate (ptr size : Nat) (lock : Option String)
    (st : MemState) : Except SecureMemoryError Unit × MemState :=
  if ptr = 0 then
    (.error .InvalidAccess, st)
  else if isizeMax < size then
    (.error (.OperationFailed layoutErrMsg), st)
  else
    let st1 : MemState := { st with mem := write_bytes st.mem ptr 0 size }
    let st2 :=
      match deregister_secure_memory lock ptr st1 with
      | (.ok _, st') => st'
      | (.error _, st') => st'
    (.ok (), { st2 with heap := st2.heap.erase ptr })

/-- `validate_string` rejects exactly the inputs with a case-folded
injection pattern, a case-folded SQL pattern, or a null byte. -/
theorem validate_string_false_iff (input : List Char) :
    validate_string input = false ↔
      ((∃ pat ∈ injection_patterns, pat <:+: input.map Char.toLower) ∨
       (∃ pat ∈ sql_patterns,
          pat.map Char.toUpper <:+: input.map Char.toUpper) ∨
       Char.ofNat 0 ∈ input) := by
  unfold validate_string
  split_ifs with h1 h2 h3 <;>
    simp_all [List.any_eq_true, containsSub_iff_infix]

/-- C3: `validate_string` returns `false` exactly when the case-folded
input contains a configured injection marker, or contains a configured
SQL-injection marker, or contains a null byte; in particular it rejects
the script, script-URI and SQL-tautology test inputs and accepts the
three benign test inputs. -/
theorem validate_string_spec (input : List Char) :
    (validate_string input = false ↔
      ((∃ pat ∈ injection_patterns, pat <:+: input.map Char.toLower) ∨
       (∃ pat ∈ sql_patterns,
          pat.map Char.toUpper <:+: input.map Char.toUpper) ∨
       Char.ofNat 0 ∈ input)) ∧
    (∀ s : List Char, "<script".toList <:+: s →
      validate_string s = false) ∧
    (∀ s : List Char, "javascript:".toList <:+: s →
      validate_string s = false) ∧
    (∀ s : List Char, "' OR '1'='1".toList <:+: s →
      validate_string s = false) ∧
    validate_string "<script>alert(1)</script>".toList = false ∧
    validate_string "javascript:alert(1)".toList = false ∧
    validate_string "' OR '1'='1".toList = false ∧
    validate_string "user@example.com".toList = true ∧
    validate_string "12345".toList = true ∧
    validate_string "Hello, world!".toList = true := by
  refine ⟨validate_string_false_iff input, ?_, ?_, ?_, by decide,
    by decide, by decide, by decide, by decide, by decide⟩
  · intro s hs
    refine (validate_string_false_iff s).mpr
      (Or.inl ⟨"<script".toList, by decide, ?_⟩)
    have hmap := hs.map Char.toLower
    rw [show "<script".toList.map Char.toLower = "<script".toList
      from by decide] at hmap
    exact hmap
  · intro s hs
    refine (validate_string_false_iff s).mpr
      (Or.inl ⟨"javascript:".toList, by decide, ?_⟩)
    have hmap := hs.map Char.toLower
    rw [show "javascript:".toList.map Char.toLower = "javascript:".toList
      from by decide] at hmap
    exact hmap
  · intro s hs
    exact (validate_string_false_iff s).mpr
      (Or.inr (Or.inl ⟨"' OR '1'='1".toList, by decide,
        hs.map Char.toUpper⟩))

/-- C4: `validate_path` returns `false` exactly when the path contains a
configured traversal marker; in particular it rejects
`"../../../etc/passwd"` and `"/etc/shadow"` and accepts
`"documents/myfile.txt"`. -/
theorem validate_path_spec (path : List Char) :
    (validate_path path = false ↔
      ∃ pat ∈ traversal_patterns, pat <:+: path) ∧
    validate_path "../../../etc/passwd".toList = false ∧
    validate_path "/etc/shadow".toList = false ∧
    validate_path "documents/myfile.txt".toList = true := by
  refine ⟨?_, by decide, by decide, by decide⟩
  unfold validate_path
  split_ifs with h <;> simp_all [List.any_eq_true, containsSub_iff_infix]

/-- C1: for every sensitive container (`SecureString` or `SecureBytes`),
after `clear()` the length is `0`, `is_empty()` is `true` and the public
read-only view is empty; and `clear()` is idempotent: clearing an
already-cleared container leaves it in the same (empty) state. -/
theorem clear_spec (s : SecureString) (b : SecureBytes)
    (hs : s.sensitive = true) (hb : b.sensitive = true) :
    s.clear.len = 0 ∧ s.clear.is_empty = true ∧ s.clear.as_ref = [] ∧
    s.clear.clear = s.clear ∧
    b.clear.len = 0 ∧ b.clear.is_empty = true ∧ b.clear.as_bytes = [] ∧
    b.clear.clear = b.clear := by
  simp [SecureString.clear, SecureString.len, SecureString.is_empty,
    SecureString.as_ref, SecureBytes.clear, SecureBytes.len,
    SecureBytes.is_empty, SecureBytes.as_bytes, hs, hb]

/-- Witness for `clear_spec` at a concrete sensitive string and a
concrete sensitive byte buffer. -/
theorem clear_spec_witness :
    (SecureString.new "pw".toList).sensitive = true ∧
    (SecureBytes.new [1, 2, 3]).sensitive = true ∧
    ((SecureString.new "pw".toList).clear.len = 0 ∧
     (SecureString.new "pw".toList).clear.is_empty = true ∧
     (SecureString.new "pw".toList).clear.as_ref = [] ∧
     (SecureString.new "pw".toList).clear.clear =
       (SecureString.new "pw".toList).clear ∧
     (SecureBytes.new [1, 2, 3]).clear.len = 0 ∧
     (SecureBytes.new [1, 2, 3]).clear.is_empty = true ∧
     (SecureBytes.new [1, 2, 3]).clear.as_bytes = [] ∧
     (SecureBytes.new [1, 2, 3]).clear.clear =
       (SecureBytes.new [1, 2, 3]).clear) :=
  ⟨rfl, rfl, clear_spec (SecureString.new "pw".toList)
    (SecureBytes.new [1, 2, 3]) rfl rfl⟩

/-- C2: the rendered text of a sensitive `SecureString` is independent of
the stored value (always the fixed marker `"***REDACTED***"`), while a
non-sensitive `SecureString` renders exactly its stored value. -/
theorem display_spec (s t u : SecureString)
    (hs : s.sensitive = true) (ht : t.sensitive = true)
    (hu : u.sensitive = false) :
    s.display = t.display ∧ s.display = "***REDACTED***".toList ∧
    u.display = u.data := by
  simp [SecureString.display, hs, ht, hu]

/-- Witness for `display_spec` at two distinct sensitive values and a
non-sensitive one. -/
theorem display_spec_witness :
    (SecureString.new "hunter2".toList).sensitive = true ∧
    (SecureString.new "pa55".toList).sensitive = true ∧
    (SecureString.new_non_sensitive "greeting".toList).sensitive = false ∧
    ((SecureString.new "hunter2".toList).display =
       (SecureString.new "pa55".toList).display ∧
     (SecureString.new "hunter2".toList).display = "***REDACTED***".toList ∧
     (SecureString.new_non_sensitive "greeting".toList).display =
       (SecureString.new_non_sensitive "greeting".toList).data) :=
  ⟨rfl, rfl, rfl, display_spec (SecureString.new "hunter2".toList)
    (SecureString.new "pa55".toList)
    (SecureString.new_non_sensitive "greeting".toList) rfl rfl rfl⟩

/-- C10: sanitizing a path does not guarantee it validates: for the input
`".~."`, `sanitize_path` returns `".."` (the `".."` removal runs before
the `"~"` removal and the result is not re-scanned), which still contains
the parent-directory marker, so `validate_path` rejects the sanitized
output. -/
theorem sanitize_path_output_invalid :
    sanitize_path ".~.".toList = "..".toList ∧
    containsSub "..".toList (sanitize_path ".~.".toList) = true ∧
    validate_path (sanitize_path ".~.".toList) = false :=
  ⟨by decide, by decide, by decide⟩

/-- Single-character replacement is a characterwise `flatMap`. -/
theorem replaceSub_single (a : Char) (rep : List Char) (l : List Char) :
    replaceSub [a] rep l = l.flatMap (fun c => if c = a then rep else [c]) := by
  induction l with
  | nil => rfl
  | cons c rest ih =>
    rw [replaceSub_cons]
    by_cases h : a = c
    · subst h
      simp [List.isPrefixOf, ih]
    · have h' : c ≠ a := fun hc => h hc.symm
      simp [List.isPrefixOf, Ne.symm h', h', ih]

/-- Composition of two characterwise `flatMap`s. -/
theorem flatMap_comp (f g : Char → List Char) (l : List Char) :
    (l.flatMap f).flatMap g = l.flatMap (fun c => (f c).flatMap g) := by
  induction l with
  | nil => rfl
  | cons c rest ih => simp [List.flatMap_cons, List.flatMap_append, ih]

/-- `flatMap` only depends on the pointwise behaviour of the function. -/
theorem flatMap_ext {f g : Char → List Char} (h : ∀ c, f c = g c) :
    ∀ l : List Char, l.flatMap f = l.flatMap g := by
  intro l
  induction l with
  | nil => rfl
  | cons c rest ih => simp [List.flatMap_cons, h c, ih]

/-- Modelled from the spec: the per-character escaping described for
`sanitize_string` — each HTML-special character goes to its named entity,
null bytes are dropped, everything else is kept. -/
def specEscapeChar (c : Char) : List Char :=
  if c = '&' then "&amp;".toList
  else if c = '<' then "&lt;".toList
  else if c = '>' then "&gt;".toList
  else if c = '"' then "&quot;".toList
  else if c = '\'' then "&#39;".toList
  else if c = Char.ofNat 0 then []
  else [c]

/-- C5: `sanitize_string` escapes each HTML-special character to its
entity form and removes every null byte, characterwise and without
touching other characters; in particular the script test input maps to
its entity-escaped equivalent. -/
theorem sanitize_string_spec (input : List Char) :
    sanitize_string input = input.flatMap specEscapeChar ∧
    sanitize_string "<script>alert(1)</script>".toList =
      "&lt;script&gt;alert(1)&lt;/script&gt;".toList := by
  refine ⟨?_, by decide⟩
  unfold sanitize_string
  rw [replaceSub_single, replaceSub_single, replaceSub_single,
    replaceSub_single, replaceSub_single, replaceSub_single,
    flatMap_comp, flatMap_comp, flatMap_comp, flatMap_comp, flatMap_comp]
  refine flatMap_ext (fun c => ?_) input
  by_cases h1 : c = '&'
  · subst h1; rfl
  by_cases h2 : c = '<'
  · subst h2; rfl
  by_cases h3 : c = '>'
  · subst h3; rfl
  by_cases h4 : c = '"'
  · subst h4; rfl
  by_cases h5 : c = '\''
  · subst h5; rfl
  by_cases h6 : c = Char.ofNat 0
  · subst h6; rfl
  simp [specEscapeChar, h1, h2, h3, h4, h5, h6]

/-- If the head of a list does not start the pattern `".."`, the first
character survives `replaceSub` unchanged. -/
theorem replaceSub_dotdot_cons_ne (d : Char) (rest : List Char)
    (hd : d ≠ '.') :
    replaceSub ['.', '.'] [] (d :: rest) =
      d :: replaceSub ['.', '.'] [] rest := by
  rw [replaceSub_cons, if_neg]
  intro hcond
  have : '.' = d ∧ ['.'] <+: rest := by
    simpa [List.isPrefixOf] using hcond.1
  exact hd this.1.symm

/-- Removing `".."` leaves no occurrence of `".."` behind: a gap character
kept right before a match would have extended the match leftwards. -/
theorem no_dotdot (n : Nat) :
    ∀ l : List Char, l.length ≤ n →
      ¬ ['.', '.'] <:+: replaceSub ['.', '.'] [] l := by
  induction n with
  | zero =>
    intro l hl
    have : l = [] := List.length_eq_zero.mp (Nat.le_zero.mp hl)
    subst this
    simp [replaceSub, replaceSubAux, List.infix_nil]
  | succ n ih =>
    intro l hl
    match l with
    | [] => simp [replaceSub, replaceSubAux, List.infix_nil]
    | c :: rest =>
      rw [replaceSub_cons]
      by_cases hpre : List.isPrefixOf ['.', '.'] (c :: rest) = true
      · rw [if_pos ⟨hpre, by simp⟩]
        simp only [List.nil_append]
        refine ih _ ?_
        simp only [List.length_drop, List.length_cons] at hl ⊢
        omega
      · rw [if_neg (fun hc => hpre hc.1)]
        intro hinf
        have hr : ¬ ['.', '.'] <:+: replaceSub ['.', '.'] [] rest := by
          refine ih rest ?_
          simp only [List.length_cons] at hl
          omega
        rcases List.infix_cons_iff.mp hinf with hp | hi
        · rcases List.prefix_cons_iff.mp hp with h0 | ⟨t, ht, htp⟩
          · exact absurd h0 (by simp)
          · have hc : c = '.' := by
              have := congrArg (List.head? ·) ht
              simpa [eq_comm] using this
            have htd : t = ['.'] := by
              have := congrArg List.tail ht
              simpa [eq_comm] using this
            subst hc
            subst htd
            cases rest with
            | nil =>
              rw [show replaceSub ['.', '.'] [] ([] : List Char) = [] from rfl]
                at htp
              exact absurd (List.prefix_nil.mp htp) (by simp)
            | cons d rest2 =>
              have hd : d ≠ '.' := by
                intro hdd
                subst hdd
                exact hpre (by simp [List.isPrefixOf])
              rw [replaceSub_dotdot_cons_ne d rest2 hd] at htp
              rcases List.prefix_cons_iff.mp htp with h0 | ⟨t2, ht2, -⟩
              · exact absurd h0 (by simp)
              · have hdp : d = '.' := by
                  have := congrArg (List.head? ·) ht2
                  simpa [eq_comm] using this
                exact hd hdp
        · exact hr hi

/-- Characters of a single-character replacement come from the
replacement text or are original characters different from the pattern. -/
theorem mem_replaceSub_single {x a : Char} {rep l : List Char}
    (hx : x ∈ replaceSub [a] rep l) : x ∈ rep ∨ (x ∈ l ∧ x ≠ a) := by
  rw [replaceSub_single] at hx
  rcases List.mem_flatMap.mp hx with ⟨c, hc, hmem⟩
  by_cases h : c = a
  · subst h
    rw [if_pos rfl] at hmem
    exact Or.inl hmem
  · rw [if_neg h] at hmem
    have : x = c := by simpa using hmem
    subst this
    exact Or.inr ⟨hc, h⟩

/-- C6: `sanitize_path` removes every occurrence of `".."` present in its
input (the removal stage's output holds no `".."`), removes every `"~"`,
turns every backslash into a forward slash, and strips all leading
slashes; in particular `sanitize_path "../../../etc/passwd"` is
`"etc/passwd"`. -/
theorem sanitize_path_spec (path : List Char) :
    (¬ ['.', '.'] <:+: replaceSub ['.', '.'] [] path) ∧
    '~' ∉ sanitize_path path ∧
    '\\' ∉ sanitize_path path ∧
    (sanitize_path path).head? ≠ some '/' ∧
    sanitize_path "../../../etc/passwd".toList = "etc/passwd".toList := by
  refine ⟨no_dotdot path.length path le_rfl, ?_, ?_, ?_, by decide⟩
  · intro hmem
    have h4 : '~' ∈ replaceSub ['\\'] ['/']
        (replaceSub ['~'] [] (replaceSub ['.', '.'] [] path)) :=
      (List.dropWhile_sublist (fun c => c = '/')).mem hmem
    rcases mem_replaceSub_single h4 with h | ⟨h3, -⟩
    · simp at h
    · rcases mem_replaceSub_single h3 with h | ⟨-, hne⟩
      · simp at h
      · exact hne rfl
  · intro hmem
    have h4 : '\\' ∈ replaceSub ['\\'] ['/']
        (replaceSub ['~'] [] (replaceSub ['.', '.'] [] path)) :=
      (List.dropWhile_sublist (fun c => c = '/')).mem hmem
    rcases mem_replaceSub_single h4 with h | ⟨-, hne⟩
    · simp at h
    · exact hne rfl
  · intro hhead
    have := List.head?_dropWhile_not (fun c => c = '/')
      (replaceSub ['\\'] ['/']
        (replaceSub ['~'] [] (replaceSub ['.', '.'] [] path)))
    rw [show sanitize_path path =
        List.dropWhile (fun c => c = '/')
          (replaceSub ['\\'] ['/']
            (replaceSub ['~'] [] (replaceSub ['.', '.'] [] path)))
      from rfl] at hhead
    rw [hhead] at this
    simp at this

/-- A concrete starting state for the allocator theorems: empty registry,
no live allocation, memory filled with the byte `9`. -/
def memSt0 : MemState := { registry := [], heap := [], mem := fun _ => 9 }

/-- C7: `allocate` zeroes the fresh block and registers its address
before returning success; a null result from the system allocator is
surfaced as `AllocationFailed`; when registration fails, the block is
freed again before the `LockFailed` error is surfaced, so the error path
leaks no allocation (and the zeroing has already happened). -/
theorem allocate_spec (size ptr a : Nat) (e : String) (st : MemState)
    (hsize : size ≤ isizeMax) (hptr : ptr ≠ 0)
    (ha : ptr ≤ a ∧ a < ptr + size) :
    allocate size 0 none st =
      (.error (.AllocationFailed "allocation returned null"), st) ∧
    allocate size 0 (some e) st =
      (.error (.AllocationFailed "allocation returned null"), st) ∧
    ((allocate size ptr none st).1 = .ok ptr ∧
     (allocate size ptr none st).2.mem a = 0 ∧
     (allocate size ptr none st).2.registry = st.registry ++ [ptr] ∧
     (allocate size ptr none st).2.heap = ptr :: st.heap) ∧
    ((allocate size ptr (some e) st).1 = .error (.LockFailed e) ∧
     (allocate size ptr (some e) st).2.mem a = 0 ∧
     (allocate size ptr (some e) st).2.registry = st.registry ∧
     (allocate size ptr (some e) st).2.heap = st.heap) := by
  have hs : ¬ isizeMax < size := Nat.not_lt.mpr hsize
  refine ⟨?_, ?_, ⟨?_, ?_, ?_, ?_⟩, ⟨?_, ?_, ?_, ?_⟩⟩ <;>
    simp [allocate, register_secure_memory, hs, hptr, write_bytes,
      ha.1, ha.2, List.erase_cons_head]

/-- Witness for `allocate_spec`: a 4-byte block at address 100 in the
concrete state `memSt0`, observing the byte at address 102. -/
theorem allocate_spec_witness :
    4 ≤ isizeMax ∧ (100 : Nat) ≠ 0 ∧ ((100 : Nat) ≤ 102 ∧ 102 < 100 + 4) ∧
    (allocate 4 0 none memSt0 =
      (.error (.AllocationFailed "allocation returned null"), memSt0) ∧
     allocate 4 0 (some "poisoned") memSt0 =
      (.error (.AllocationFailed "allocation returned null"), memSt0) ∧
     ((allocate 4 100 none memSt0).1 = .ok 100 ∧
      (allocate 4 100 none memSt0).2.mem 102 = 0 ∧
      (allocate 4 100 none memSt0).2.registry = memSt0.registry ++ [100] ∧
      (allocate 4 100 none memSt0).2.heap = 100 :: memSt0.heap) ∧
     ((allocate 4 100 (some "poisoned") memSt0).1 =
        .error (.LockFailed "poisoned") ∧
      (allocate 4 100 (some "poisoned") memSt0).2.mem 102 = 0 ∧
      (allocate 4 100 (some "poisoned") memSt0).2.registry =
        memSt0.registry ∧
      (allocate 4 100 (some "poisoned") memSt0).2.heap = memSt0.heap)) :=
  ⟨by decide, by decide, by decide,
   allocate_spec 4 100 102 "poisoned" memSt0 (by decide) (by decide)
     (by decide)⟩

/-- The claim that `deallocate` rejects an already-freed handle is false:
deallocating the same non-null handle twice succeeds both times; the
second call returns `.ok ()`, not `.error .InvalidAccess`. -/
theorem deallocate_dangling_ok :
    (deallocate 100 4 none
      (deallocate 100 4 none (allocate 4 100 none memSt0).2).2).1 =
      .ok () ∧
    (Except.ok () : Except SecureMemoryError Unit) ≠
      .error .InvalidAccess :=
  ⟨rfl, by simp⟩

/-- C8 (amended): `deallocate` fails with `InvalidAccess` exactly when
the handle is null — an already-freed non-null handle is not detected.
For a non-null handle and an in-range size it zeroes the block, then
attempts registry removal: with the lock available the address is
retained out of the registry, and a lock failure is suppressed (registry
left unchanged); in both cases the block is released and the call
returns success. -/
theorem deallocate_spec (ptr size a : Nat) (e : String) (st : MemState)
    (hsize : size ≤ isizeMax) (hptr : ptr ≠ 0)
    (ha : ptr ≤ a ∧ a < ptr + size) :
    deallocate 0 size none st = (.error .InvalidAccess, st) ∧
    deallocate 0 size (some e) st = (.error .InvalidAccess, st) ∧
    ((deallocate ptr size none st).1 = .ok () ∧
     (deallocate ptr size none st).2.mem a = 0 ∧
     (deallocate ptr size none st).2.registry =
       st.registry.filter (fun p => p ≠ ptr) ∧
     (deallocate ptr size none st).2.heap = st.heap.erase ptr) ∧
    ((deallocate ptr size (some e) st).1 = .ok () ∧
     (deallocate ptr size (some e) st).2.mem a = 0 ∧
     (deallocate ptr size (some e) st).2.registry = st.registry ∧
     (deallocate ptr size (some e) st).2.heap = st.heap.erase ptr) := by
  have hs : ¬ isizeMax < size := Nat.not_lt.mpr hsize
  refine ⟨?_, ?_, ⟨?_, ?_, ?_, ?_⟩, ⟨?_, ?_, ?_, ?_⟩⟩ <;>
    simp [deallocate, deregister_secure_memory, hs, hptr, write_bytes,
      ha.1, ha.2]

/-- Witness for `deallocate_spec`: handle 100, 4 bytes, in the concrete
state `memSt0`, observing the byte at address 102. -/
theorem deallocate_spec_witness :
    4 ≤ isizeMax ∧ (100 : Nat) ≠ 0 ∧ ((100 : Nat) ≤ 102 ∧ 102 < 100 + 4) ∧
    (deallocate 0 4 none memSt0 = (.error .InvalidAccess, memSt0) ∧
     deallocate 0 4 (some "poisoned") memSt0 =
       (.error .InvalidAccess, memSt0) ∧
     ((deallocate 100 4 none memSt0).1 = .ok () ∧
      (deallocate 100 4 none memSt0).2.mem 102 = 0 ∧
      (deallocate 100 4 none memSt0).2.registry =
        memSt0.registry.filter (fun p => p ≠ 100) ∧
      (deallocate 100 4 none memSt0).2.heap = memSt0.heap.erase 100) ∧
     ((deallocate 100 4 (some "poisoned") memSt0).1 = .ok () ∧
      (deallocate 100 4 (some "poisoned") memSt0).2.mem 102 = 0 ∧
      (deallocate 100 4 (some "poisoned") memSt0).2.registry =
        memSt0.registry ∧
      (deallocate 100 4 (some "poisoned") memSt0).2.heap =
        memSt0.heap.erase 100)) :=
  ⟨by decide, by decide, by decide,
   deallocate_spec 100 4 102 "poisoned" memSt0 (by decide) (by decide)
     (by decide)⟩

/-- C9: the registry tracks exactly the live secure allocations: an
allocate-then-deallocate round trip leaves the registry as it started,
without the block's address; allocating without deallocating leaves
exactly one tracked entry for the address; deregistering an address not
present succeeds and leaves the registry unchanged. -/
theorem registry_tracking (size ptr : Nat) (st : MemState)
    (hsize : size ≤ isizeMax) (hptr : ptr ≠ 0)
    (hfresh : ptr ∉ st.registry) :
    ptr ∉
      (deallocate ptr size none (allocate size ptr none st).2).2.registry ∧
    (deallocate ptr size none (allocate size ptr none st).2).2.registry =
      st.registry ∧
    List.count ptr (allocate size ptr none st).2.registry = 1 ∧
    deregister_secure_memory none ptr st = (.ok (), st) := by
  have hs : ¬ isizeMax < size := Nat.not_lt.mpr hsize
  have hreg : (allocate size ptr none st).2.registry =
      st.registry ++ [ptr] := by
    simp [allocate, register_secure_memory, hs, hptr]
  have hfilter : st.registry.filter (fun p => p ≠ ptr) = st.registry :=
    List.filter_eq_self.mpr (fun a ha => by
      simp only [decide_eq_true_eq]
      exact fun h => hfresh (h ▸ ha))
  refine ⟨?_, ?_, ?_, ?_⟩
  · simp [deallocate, deregister_secure_memory, hs, hptr, hreg]
  · simp only [deallocate, deregister_secure_memory, hs, if_false,
      hptr, if_neg hptr, hreg]
    simp [hreg]
    intro a ha h
    exact hfresh (h ▸ ha)
  · simp [hreg, List.count_append, List.count_eq_zero.mpr hfresh]
  · show (Except.ok (),
      { st with registry := st.registry.filter (fun p => p ≠ ptr) }) =
      (Except.ok (), st)
    rw [hfilter]

/-- Witness for `registry_tracking`: a 4-byte block at address 100 in the
concrete state `memSt0`, whose registry does not hold 100. -/
theorem registry_tracking_witness :
    4 ≤ isizeMax ∧ (100 : Nat) ≠ 0 ∧ (100 : Nat) ∉ memSt0.registry ∧
    ((100 : Nat) ∉
      (deallocate 100 4 none (allocate 4 100 none memSt0).2).2.registry ∧
     (deallocate 100 4 none (allocate 4 100 none memSt0).2).2.registry =
       memSt0.registry ∧
     List.count 100 (allocate 4 100 none memSt0).2.registry = 1 ∧
     deregister_secure_memory none 100 memSt0 = (.ok (), memSt0)) :=
  ⟨by decide, by decide, by decide,
   registry_tracking 4 100 memSt0 (by decide) (by decide) (by decide)⟩
